import Mathlib

/-!
Verification of thenewboston-node's ledger-engine specification.

The repository sources available here are `documentable.py` (the
documentation mixin for ledger entities) and the blockchain-state-meta
endpoint tests.  The ledger engine itself (addressing scheme, block
application, snapshotting, state-reference resolution) is therefore
modelled from the specification, as marked on each definition; the
documentation mixin is embedded directly from `documentable.py`.
-/

namespace TNB

/-! ## Addressing scheme (spec 4.1)

Modelled from the spec: `path_for` zero-pads the number to a fixed width
W = 9, uses the first W-1 digits as nested directory levels and embeds the
full padded number, a `!` boundary marker, the `-blockchain-state` suffix
and the `.msgpack` extension in the filename. -/

/-- Modelled from the spec: the fixed path width W (9 digits). -/
def pathWidth : Nat := 9

/-- The decimal digit character for a digit value (values above 9 do not
occur: every digit fed to this function is a `% 10` result). -/
def digitChar (d : Nat) : Char :=
  match d with
  | 0 => '0' | 1 => '1' | 2 => '2' | 3 => '3' | 4 => '4'
  | 5 => '5' | 6 => '6' | 7 => '7' | 8 => '8' | _ => '9'

/-- Numeric value of a decimal digit character. -/
def charVal (c : Char) : Nat := c.toNat - 48

/-- The `w` decimal digits of `n` zero-padded to width `w`, most
significant first (the digit string produced by zero-padding). -/
def padDigits : Nat → Nat → List Nat
  | 0, _ => []
  | w + 1, n => n / 10 ^ w % 10 :: padDigits w n

/-- Directory-level characters: each digit becomes one nested directory,
so each digit character is followed by a path separator. -/
def dirCharsOf : List Nat → List Char
  | [] => []
  | d :: ds => digitChar d :: '/' :: dirCharsOf ds

/-- Modelled from the spec: the filename tail after the padded number —
the `!` boundary marker, the kind suffix and the serialization-format
extension (msgpack, per the compact binary format of spec 6). -/
def stateSuffix : List Char := '!' :: "-blockchain-state.msgpack".data

/-- Characters of the storage-relative path for state number `n`:
the first W-1 padded digits as directories, then the filename embedding
the full padded number. -/
def pathChars (n : Nat) : List Char :=
  dirCharsOf ((padDigits pathWidth n).take (pathWidth - 1)) ++
    ((padDigits pathWidth n).map digitChar ++ stateSuffix)

/-- Modelled from the spec: `path_for` of the addressing scheme. -/
def path_for (n : Nat) : String := ⟨pathChars n⟩

/-- Fold most-significant-first decimal digit characters into a number. -/
def foldDigits (cs : List Char) : Nat := cs.foldl (fun a c => a * 10 + charVal c) 0

/-- Decoder for addressed paths: the digit characters before the `!`
boundary marker are the W-1 directory digits followed by the full padded
number; dropping the directory digits and folding recovers the number. -/
def decodePathChars (cs : List Char) : Option Nat :=
  let ds := (cs.takeWhile (fun c => c != '!')).filter Char.isDigit
  if ds.length = 2 * pathWidth - 1 then some (foldDigits (ds.drop (pathWidth - 1)))
  else none

/-- Decode the number addressed by a storage path. -/
def decode_path (s : String) : Option Nat := decodePathChars s.data

/-! ## Ledger engine (spec 3 and 4.4)

The ledger engine sources are not available here (only their tests), so
the following definitions are modelled from the spec: signed change
requests, blocks, the materialized ledger state, snapshotting and
state-reference resolution. -/

/-- Generic association-list lookup (first match wins). -/
def lookupAssoc {κ : Type} [DecidableEq κ] {α : Type} (k : κ) :
    List (κ × α) → Option α
  | [] => none
  | (k', v) :: rest => if k' = k then some v else lookupAssoc k rest

/-- Generic association-list upsert: replaces the value under an existing
key in place, otherwise appends the new entry. -/
def upsertAssoc {κ : Type} [DecidableEq κ] {α : Type} (k : κ) (v : α) :
    List (κ × α) → List (κ × α)
  | [] => [(k, v)]
  | (k', v') :: rest => if k' = k then (k, v) :: rest else (k', v') :: upsertAssoc k v rest

/-- Modelled from the spec: a signed change request is a typed intent to
mutate ledger state — a node declaration (network addresses and fee) or a
value transfer.  Signature material is validated before admission and
plays no role in the claims below, so it is not carried here. -/
inductive SignedChangeRequest where
  | nodeDeclaration (nodeId : String) (network_addresses : List String) (fee_amount : Nat)
  | coinTransfer (sender recipient : String) (amount : Nat)
deriving DecidableEq

/-- Modelled from the spec: a block wraps one accepted change request
under a strictly increasing block number. -/
structure Blk where
  number : Nat
  request : SignedChangeRequest
deriving DecidableEq

/-- Modelled from the spec: the materialized ledger state —
`last_block_number` (the genesis marker, the logical predecessor of block
0, is `none`), account balances, declared nodes, and a digest. -/
structure LedgerState where
  last_block_number : Option Nat
  accounts : List (String × Nat)
  nodes : List (String × (List String × Nat))
  root_hash : Nat
deriving DecidableEq

/-- Byte encoding of a string (length-tagged character codes). -/
def serializeString (s : String) : List Nat := s.length :: s.data.map Char.toNat

/-- Modelled from the spec: compact binary serialization of the account
registry. -/
def serializeAccounts (accounts : List (String × Nat)) : List Nat :=
  accounts.foldr (fun p acc => serializeString p.1 ++ [p.2] ++ acc) []

/-- Modelled from the spec: compact binary serialization of the node
registry. -/
def serializeNodes (nodes : List (String × (List String × Nat))) : List Nat :=
  nodes.foldr
    (fun p acc =>
      serializeString p.1 ++ (p.2.1.foldr (fun a bs => serializeString a ++ bs) []) ++
        [p.2.2] ++ acc)
    []

/-- Modelled from the spec: a digest summarizing the full state, used to
detect divergence between independently computed states. -/
def rootHashOf (bytes : List Nat) : Nat :=
  bytes.foldl (fun h b => (h * 31 + b + 1) % 2 ^ 256) 7

/-- Modelled from the spec: serialization of a full ledger state, the
snapshot artifact content. -/
def serializeState (st : LedgerState) : List Nat :=
  (match st.last_block_number with
   | none => [0]
   | some n => [1, n]) ++ serializeAccounts st.accounts ++ serializeNodes st.nodes ++
    [st.root_hash]

/-- Modelled from the spec (4.4): the deterministic per-request-kind state
transition — a node declaration upserts the node registry entry, a value
transfer debits the sender and credits the recipient. -/
def applyRequest (r : SignedChangeRequest) (accounts : List (String × Nat))
    (nodes : List (String × (List String × Nat))) :
    List (String × Nat) × List (String × (List String × Nat)) :=
  match r with
  | .nodeDeclaration nodeId addrs fee => (accounts, upsertAssoc nodeId (addrs, fee) nodes)
  | .coinTransfer sender recipient amount =>
      let debited := upsertAssoc sender ((lookupAssoc sender accounts).getD 0 - amount) accounts
      (upsertAssoc recipient ((lookupAssoc recipient debited).getD 0 + amount) debited, nodes)

/-- Modelled from the spec: applying one block advances
`last_block_number`, applies the request's effect and recomputes the
digest. -/
def applyBlock (st : LedgerState) (b : Blk) : LedgerState :=
  let step := applyRequest b.request st.accounts st.nodes
  { last_block_number := some b.number
    accounts := step.1
    nodes := step.2
    root_hash := rootHashOf (serializeAccounts step.1 ++ serializeNodes step.2) }

/-- Modelled from the spec: applying an ordered block sequence to a
genesis state. -/
def applyBlocks (g : LedgerState) (bs : List Blk) : LedgerState := bs.foldl applyBlock g

/-- Modelled from the spec: meta result for a snapshot — the
`last_block_number` it reflects, the storage-relative path and the
absolute URLs. -/
structure SnapshotMeta where
  last_block_number : Option Nat
  url_path : String
  urls : List String
deriving DecidableEq

/-- Modelled from the spec and the endpoint test: the storage-relative
location under which blockchain-state artifacts live. -/
def storagePath : String := "/blockchain/blockchain-states/"

/-- Modelled from the spec: the addressing index of a state — the genesis
marker (predecessor of block 0) is addressed as number 0, the state after
block n as n + 1. -/
def stateIndex : Option Nat → Nat
  | none => 0
  | some n => n + 1

/-- Modelled from the spec: meta triple for the snapshot reflecting
`lbn`, with one URL per configured base URL, in order. -/
def snapshotMeta (baseUrls : List String) (lbn : Option Nat) : SnapshotMeta :=
  { last_block_number := lbn
    url_path := storagePath ++ path_for (stateIndex lbn)
    urls := baseUrls.map (fun b => b ++ (storagePath ++ path_for (stateIndex lbn))) }

/-- Modelled from the spec: a single-node ledger — configuration, the
append-only block log, the materialized state and the snapshot store
(`last_block_number` of the snapshotted state, serialized artifact). -/
structure Ledger where
  baseUrls : List String
  blocks : List Blk
  state : LedgerState
  snapshots : List (Option Nat × List Nat)
deriving DecidableEq

/-- Modelled from the spec: current head number, genesis marker when the
chain is empty. -/
def get_last_block_number (l : Ledger) : Option Nat := l.state.last_block_number

/-- The number the next appended block will carry. -/
def nextBlockNumber (l : Ledger) : Nat :=
  match get_last_block_number l with
  | none => 0
  | some n => n + 1

/-- Modelled from the spec: `add_block` appends the block built from an
(already validated) change request to the log and applies its effect to
the materialized state. -/
def add_block (l : Ledger) (r : SignedChangeRequest) : Ledger :=
  let b : Blk := { number := nextBlockNumber l, request := r }
  { l with blocks := l.blocks ++ [b], state := applyBlock l.state b }

/-- Modelled from the spec: `snapshot_blockchain_state` durably stores
the serialized current state keyed by its `last_block_number` and returns
the meta triple. -/
def snapshot_blockchain_state (l : Ledger) : Ledger × SnapshotMeta :=
  ({ l with
      snapshots :=
        upsertAssoc (get_last_block_number l) (serializeState l.state) l.snapshots },
   snapshotMeta l.baseUrls (get_last_block_number l))

/-- Whether a snapshot for the given `last_block_number` exists. -/
def hasSnapshot (l : Ledger) (k : Option Nat) : Bool := (lookupAssoc k l.snapshots).isSome

/-- Modelled from the spec: surrounding-whitespace trimming of a token. -/
def trimChars (cs : List Char) : List Char :=
  ((cs.dropWhile Char.isWhitespace).reverse.dropWhile Char.isWhitespace).reverse

/-- Trim surrounding whitespace from a token string. -/
def trimToken (s : String) : String := ⟨trimChars s.data⟩

/-- Modelled from the spec: a token is a non-negative integer string when
it is non-empty and all of its characters are decimal digits; its value is
the decimal reading. -/
def parseNonNegInt (cs : List Char) : Option Nat :=
  if cs ≠ [] ∧ cs.all Char.isDigit then some (foldDigits cs) else none

/-- Modelled from the spec (4.4): `resolve_state_reference` — the trimmed
literals `-1`, `null` and `genesis` alias the genesis snapshot; a
non-negative integer string resolves to the snapshot taken at exactly
that block number when one exists; everything else (other negative
integers, non-integer strings, integers with no snapshot or beyond the
chain head — the model only ever stores snapshots at or below the head)
is NotFound. -/
def resolve_state_reference (l : Ledger) (token : String) : Option SnapshotMeta :=
  let t := trimToken token
  if t = "-1" ∨ t = "null" ∨ t = "genesis" then
    if hasSnapshot l none then some (snapshotMeta l.baseUrls none) else none
  else
    match parseNonNegInt t.data with
    | some n =>
        if hasSnapshot l (some n) then some (snapshotMeta l.baseUrls (some n)) else none
    | none => none

/-- Modelled from the spec (6): the HTTP boundary for
`GET /api/v1/blockchain-states-meta/(token)/` — HTTP 200 with the meta on
success, HTTP 404 with no body when the token is unresolvable. -/
def blockchain_states_meta_view (l : Ledger) (token : String) :
    Nat × Option SnapshotMeta :=
  match resolve_state_reference l token with
  | some m => (200, some m)
  | none => (404, none)

/-- Decimal string of a natural number (most significant digit first). -/
def natToString (n : Nat) : String :=
  if n = 0 then "0" else ⟨((Nat.digits 10 n).reverse.map digitChar)⟩

/-- A concrete genesis ledger used by the witnesses: one configured base
URL, an empty chain, and the mandatory genesis snapshot. -/
def genesisState : LedgerState :=
  { last_block_number := none
    accounts := []
    nodes := []
    root_hash := rootHashOf (serializeAccounts [] ++ serializeNodes []) }

/-- Concrete ledger holding only the genesis snapshot. -/
def exLedger : Ledger :=
  { baseUrls := ["http://localhost:8555"]
    blocks := []
    state := genesisState
    snapshots := [(none, serializeState genesisState)] }

/-! ## Documentation mixin (documentable.py)

Embedded from `business_logic/models/mixins/documentable.py`.  A Python
class is modelled by the data its documentation methods read: the
per-class attribute-doc dictionaries along its method resolution order
(`class_doc.extract_docs_from_cls_obj` output for each class, base-most
last in `mro`, with `object` already excluded as the source does), the
field metadata mapping, and the field type structure. -/

/-- A class as seen by `extract_attribute_docs`: the extracted attribute
docs of each class in `model.mro()` order (the class itself first, bases
after, `object` excluded), each a dict from field name to the list of
docstring lines. -/
structure ClassModel where
  mroDocs : List (List (String × List String))

/-- Python dict merge-update `d |= e`: values of existing keys are
replaced in place, new keys are appended in order. -/
def dictUpdate (d e : List (String × List String)) : List (String × List String) :=
  d.map (fun p => (p.1, (lookupAssoc p.1 e).getD p.2)) ++
    e.filter (fun p => (lookupAssoc p.1 d).isNone)

/-- From documentable.py `extract_attribute_docs`: an empty dict updated
with each class's extracted docs in reversed MRO order, so more derived
classes override their bases. -/
def extract_attribute_docs (m : ClassModel) : List (String × List String) :=
  m.mroDocs.reverse.foldl (fun docs cls => dictUpdate docs cls) []

/-- Python stdlib `textwrap.dedent`, modelled as the identity: the
docstring lines are joined into a single line first, and the claims below
do not depend on whitespace normalization. -/
def textwrapDedent (s : String) : String := s

/-- Stand-in for the repo helper `humanize_snake_case` (its source is not
included here and the claims do not depend on its exact output):
underscores become spaces. -/
def humanize_snake_case (s : String) : String :=
  ⟨s.data.map (fun c => if c = '_' then ' ' else c)⟩

/-- The result value of one `get_field_docstring` call body, given the
attribute-docs table in use: a truthy (non-empty) docstring list is
joined and dedented, otherwise the humanized field name is implied when
requested, otherwise Python `None`. -/
def fieldDocFrom (docs : List (String × List String)) (field_name : String)
    (imply_field_name : Bool) : Option String :=
  match lookupAssoc field_name docs with
  | some (d :: ds) => some (textwrapDedent (String.intercalate " " (d :: ds)))
  | some [] => if imply_field_name then some (humanize_snake_case field_name) else none
  | Option.none => if imply_field_name then some (humanize_snake_case field_name) else none

/-- One `get_field_docstring` call: the resulting class-level
`attribute_docs` cache, the returned value, and whether this call ran
`extract_attribute_docs` (walked the class hierarchy). -/
structure FieldDocResult where
  cache : Option (List (String × List String))
  result : Option String
  computed : Bool
deriving DecidableEq

/-- From documentable.py `get_field_docstring`: when the class-level
`attribute_docs` cache is unset (`None`) it is computed once via
`extract_attribute_docs` and stored on the class; the lookup then runs
against the cached table. -/
def get_field_docstring (m : ClassModel) (cache : Option (List (String × List String)))
    (field_name : String) (imply_field_name : Bool) : FieldDocResult :=
  match cache with
  | some docs =>
      { cache := some docs
        result := fieldDocFrom docs field_name imply_field_name
        computed := false }
  | Option.none =>
      { cache := some (extract_attribute_docs m)
        result := fieldDocFrom (extract_attribute_docs m) field_name imply_field_name
        computed := true }

/-- A Python value as it appears in field metadata `example_value`
entries: `None`, booleans, integers, strings, dates and datetimes (the
kinds `json.dumps` with `default_serialize` handles in the source). -/
inductive PyValue where
  | none
  | boolean (b : Bool)
  | int (n : Int)
  | str (s : String)
  | date (y mo d : Nat)
  | datetime (y mo d h mi s : Nat)
deriving DecidableEq

/-- Python `date.isoformat()`: YYYY-MM-DD with zero padding. -/
def isoDate (y mo d : Nat) : String :=
  (⟨(padDigits 4 y).map digitChar⟩ : String) ++ "-" ++
    (⟨(padDigits 2 mo).map digitChar⟩ : String) ++ "-" ++
    (⟨(padDigits 2 d).map digitChar⟩ : String)

/-- Python `datetime.isoformat()`: the date part, `T`, then HH:MM:SS. -/
def isoDateTime (y mo d h mi s : Nat) : String :=
  isoDate y mo d ++ "T" ++ (⟨(padDigits 2 h).map digitChar⟩ : String) ++ ":" ++
    (⟨(padDigits 2 mi).map digitChar⟩ : String) ++ ":" ++
    (⟨(padDigits 2 s).map digitChar⟩ : String)

/-- Decimal string of an integer. -/
def intToString (n : Int) : String :=
  if n < 0 then "-" ++ natToString n.natAbs else natToString n.natAbs

/-- Python `json.dumps(value, default=default_serialize)` on the value
kinds above: `None` encodes as `null`; dates and datetimes fall through
to `default_serialize`, which ISO-formats them, and the resulting string
is JSON-quoted (string escaping of special characters is elided — the
example values contain none). -/
def json_dumps : PyValue → String
  | PyValue.none => "null"
  | PyValue.boolean true => "true"
  | PyValue.boolean false => "false"
  | PyValue.int n => intToString n
  | PyValue.str s => "\"" ++ s ++ "\""
  | PyValue.date y mo d => "\"" ++ isoDate y mo d ++ "\""
  | PyValue.datetime y mo d h mi s => "\"" ++ isoDateTime y mo d h mi s ++ "\""

/-- From documentable.py `get_field_example_value`: the field metadata is
consulted with the `SENTINEL` default, so an absent `example_value` entry
returns Python `None` (modelled `PyValue.none`); a present value is
returned as its `json.dumps` encoding when `jsonify` and unchanged
otherwise.  The metadata dict is modelled as the association list it is,
an absent key being `Option.none`. -/
def get_field_example_value (metadata : List (String × PyValue)) (jsonify : Bool) :
    PyValue :=
  match lookupAssoc "example_value" metadata with
  | Option.none => PyValue.none
  | some v => if jsonify then PyValue.str (json_dumps v) else v

/-- A field type as `get_nested_models` inspects it: a direct
documentable model class, `typing.List[item]`, `typing.Dict[key, value]`
(each position holding a documentable model class or not), or a plain
non-generic, non-documentable type. -/
inductive FieldSpec (C : Type) where
  | direct (t : C)
  | listOf (item : Option C)
  | dictOf (key value : Option C)
  | plain

/-- The documentable model classes one field contributes, in the order
the source checks them: the direct field type; the list item type; the
dict key type then the dict value type. -/
def fieldModels {C : Type} : FieldSpec C → List C
  | FieldSpec.direct t => [t]
  | FieldSpec.listOf (some t) => [t]
  | FieldSpec.listOf Option.none => []
  | FieldSpec.dictOf k v => k.toList ++ v.toList
  | FieldSpec.plain => []

/-- All documentable model classes contributed by a class's fields, in
field order. -/
def nestedCandidates {C : Type} (fields : C → List (FieldSpec C)) (c : C) : List C :=
  (fields c).foldr (fun fs acc => fieldModels fs ++ acc) []

/-- From documentable.py `get_nested_models`, the loop body: each
candidate nested model class is skipped when already known, otherwise its
own nested models are gathered recursively with the class itself
appended first (`include_self=True` inside the recursion appends before
walking the fields).  The `fuel` argument only bounds recursion depth,
which Python leaves unbounded; every property below holds for every
fuel. -/
def get_nested_models_go {C : Type} [DecidableEq C] (fields : C → List (FieldSpec C)) :
    Nat → List C → List C → List C
  | 0, _, known_models => known_models
  | _ + 1, [], known_models => known_models
  | fuel + 1, t :: ts, known_models =>
      if t ∈ known_models then
        get_nested_models_go fields fuel ts known_models
      else
        get_nested_models_go fields fuel ts
          (get_nested_models_go fields fuel (nestedCandidates fields t)
            (known_models ++ [t]))

/-- From documentable.py `get_nested_models`: the class is appended to
`known_models` first when `include_self`, then the candidate nested
models of its fields are processed in order (the caller must satisfy the
asserted precondition `cls not in known_models`). -/
def get_nested_models {C : Type} [DecidableEq C] (fields : C → List (FieldSpec C))
    (fuel : Nat) (cls : C) (known_models : List C) (include_self : Bool) : List C :=
  get_nested_models_go fields fuel (nestedCandidates fields cls)
    (if include_self then known_models ++ [cls] else known_models)

/-- Concrete two-class universe with mutually recursive field types,
used for the C10 counterexample: class A has one field of type B and
class B one field of type A. -/
inductive ExCls where
  | A
  | B
deriving DecidableEq

/-- Field structure of the concrete universe: A references B, B
references A. -/
def exFields : ExCls → List (FieldSpec ExCls)
  | ExCls.A => [FieldSpec.direct ExCls.B]
  | ExCls.B => [FieldSpec.direct ExCls.A]

theorem lookupAssoc_upsertAssoc {κ : Type} [DecidableEq κ] {α : Type}
    (k : κ) (v : α) (s : List (κ × α)) :
    lookupAssoc k (upsertAssoc k v s) = some v := by
  induction s with
  | nil => simp [upsertAssoc, lookupAssoc]
  | cons p rest ih =>
    by_cases h : p.1 = k
    · simp [upsertAssoc, lookupAssoc, h]
    · simp [upsertAssoc, lookupAssoc, h, ih]

theorem upsertAssoc_idem {κ : Type} [DecidableEq κ] {α : Type}
    (k : κ) (v : α) (s : List (κ × α)) :
    upsertAssoc k v (upsertAssoc k v s) = upsertAssoc k v s := by
  induction s with
  | nil => simp [upsertAssoc]
  | cons p rest ih =>
    by_cases h : p.1 = k
    · simp [upsertAssoc, h]
    · simp [upsertAssoc, h, ih]

theorem padDigits_length (w n : Nat) : (padDigits w n).length = w := by
  induction w with
  | zero => rfl
  | succ w ih => simp [padDigits, ih]

theorem padDigits_lt (w n : Nat) : ∀ d ∈ padDigits w n, d < 10 := by
  induction w with
  | zero => intro d hd; simp [padDigits] at hd
  | succ w ih =>
    intro d hd
    simp only [padDigits, List.mem_cons] at hd
    rcases hd with h | h
    · rw [h]; exact Nat.mod_lt _ (by norm_num)
    · exact ih d h

theorem foldl_padDigits (w : Nat) : ∀ (n a : Nat),
    (padDigits w n).foldl (fun x d => x * 10 + d) a = a * 10 ^ w + n % 10 ^ w := by
  induction w with
  | zero => intro n a; simp [padDigits, Nat.mod_one]
  | succ w ih =>
    intro n a
    simp only [padDigits, List.foldl_cons]
    rw [ih]
    have h10 : (10 : Nat) ^ (w + 1) = 10 ^ w * 10 := by ring
    have hmm : n % (10 ^ w * 10) = n % 10 ^ w + 10 ^ w * (n / 10 ^ w % 10) :=
      Nat.mod_mul
    rw [h10, hmm]
    ring

theorem charVal_digitChar {d : Nat} (h : d < 10) : charVal (digitChar d) = d := by
  interval_cases d <;> rfl

theorem digitChar_isDigit {d : Nat} (h : d < 10) : (digitChar d).isDigit = true := by
  interval_cases d <;> rfl

theorem digitChar_ne_bang {d : Nat} (h : d < 10) : (digitChar d != '!') = true := by
  interval_cases d <;> rfl

theorem takeWhile_append_all {α : Type} (p : α → Bool) (l₁ l₂ : List α)
    (h : ∀ c ∈ l₁, p c = true) :
    (l₁ ++ l₂).takeWhile p = l₁ ++ l₂.takeWhile p := by
  induction l₁ with
  | nil => simp
  | cons c cs ih =>
    have hc : p c = true := h c (List.mem_cons_self c cs)
    simp only [List.cons_append, List.takeWhile_cons, hc, if_true]
    rw [ih (fun x hx => h x (List.mem_cons_of_mem c hx))]

theorem filter_dirCharsOf (ds : List Nat) (h : ∀ d ∈ ds, d < 10) :
    (dirCharsOf ds).filter Char.isDigit = ds.map digitChar := by
  induction ds with
  | nil => rfl
  | cons d rest ih =>
    have hd : d < 10 := h d (List.mem_cons_self d rest)
    have hslash : Char.isDigit '/' = false := rfl
    simp only [dirCharsOf, List.filter_cons, digitChar_isDigit hd, hslash, List.map_cons]
    simp [ih (fun x hx => h x (List.mem_cons_of_mem d hx))]

theorem filter_map_digitChar (ds : List Nat) (h : ∀ d ∈ ds, d < 10) :
    (ds.map digitChar).filter Char.isDigit = ds.map digitChar := by
  induction ds with
  | nil => rfl
  | cons d rest ih =>
    have hd : d < 10 := h d (List.mem_cons_self d rest)
    simp only [List.map_cons, List.filter_cons, digitChar_isDigit hd, if_true]
    rw [ih (fun x hx => h x (List.mem_cons_of_mem d hx))]

theorem foldDigits_map_digitChar (ds : List Nat) (h : ∀ d ∈ ds, d < 10) : ∀ a : Nat,
    (ds.map digitChar).foldl (fun x c => x * 10 + charVal c) a =
      ds.foldl (fun x d => x * 10 + d) a := by
  induction ds with
  | nil => intro a; rfl
  | cons d rest ih =>
    intro a
    have hd : d < 10 := h d (List.mem_cons_self d rest)
    simp only [List.map_cons, List.foldl_cons, charVal_digitChar hd]
    exact ih (fun x hx => h x (List.mem_cons_of_mem d hx)) _

theorem dirCharsOf_ne_bang (ds : List Nat) (h : ∀ d ∈ ds, d < 10) :
    ∀ c ∈ dirCharsOf ds, (c != '!') = true := by
  induction ds with
  | nil => intro c hc; simp [dirCharsOf] at hc
  | cons d rest ih =>
    intro c hc
    have hd : d < 10 := h d (List.mem_cons_self d rest)
    simp only [dirCharsOf, List.mem_cons] at hc
    rcases hc with rfl | rfl | hc
    · exact digitChar_ne_bang hd
    · rfl
    · exact ih (fun x hx => h x (List.mem_cons_of_mem d hx)) c hc

theorem map_digitChar_ne_bang (ds : List Nat) (h : ∀ d ∈ ds, d < 10) :
    ∀ c ∈ ds.map digitChar, (c != '!') = true := by
  intro c hc
  rcases List.mem_map.mp hc with ⟨d, hd, rfl⟩
  exact digitChar_ne_bang (h d hd)

/-- Core round-trip fact: decoding the characters of a produced path
recovers the number. -/
theorem decodePathChars_pathChars (n : Nat) (h : n < 10 ^ pathWidth) :
    decodePathChars (pathChars n) = some n := by
  have hPlt : ∀ d ∈ padDigits pathWidth n, d < 10 := padDigits_lt _ _
  have hd8lt : ∀ d ∈ (padDigits pathWidth n).take (pathWidth - 1), d < 10 :=
    fun d hd => hPlt d (List.take_subset _ _ hd)
  have hfront : ∀ c ∈ dirCharsOf ((padDigits pathWidth n).take (pathWidth - 1)) ++
      (padDigits pathWidth n).map digitChar, (c != '!') = true := by
    intro c hc
    rcases List.mem_append.mp hc with hc | hc
    · exact dirCharsOf_ne_bang _ hd8lt c hc
    · exact map_digitChar_ne_bang _ hPlt c hc
  have hassoc : pathChars n =
      (dirCharsOf ((padDigits pathWidth n).take (pathWidth - 1)) ++
        (padDigits pathWidth n).map digitChar) ++ stateSuffix := by
    simp [pathChars, List.append_assoc]
  have htake : (pathChars n).takeWhile (fun c => c != '!') =
      dirCharsOf ((padDigits pathWidth n).take (pathWidth - 1)) ++
        (padDigits pathWidth n).map digitChar := by
    rw [hassoc, takeWhile_append_all _ _ _ hfront]
    simp [stateSuffix, List.takeWhile_cons]
  have hfilter : ((pathChars n).takeWhile (fun c => c != '!')).filter Char.isDigit =
      ((padDigits pathWidth n).take (pathWidth - 1)).map digitChar ++
        (padDigits pathWidth n).map digitChar := by
    rw [htake, List.filter_append, filter_dirCharsOf _ hd8lt, filter_map_digitChar _ hPlt]
  have hlen8 : (((padDigits pathWidth n).take (pathWidth - 1)).map digitChar).length =
      pathWidth - 1 := by
    simp [padDigits_length]
  have hlen : (((pathChars n).takeWhile (fun c => c != '!')).filter Char.isDigit).length =
      2 * pathWidth - 1 := by
    rw [hfilter]
    simp only [List.length_append, List.length_map, List.length_take, padDigits_length]
    simp [pathWidth]
  have hdrop : (((pathChars n).takeWhile (fun c => c != '!')).filter Char.isDigit).drop
      (pathWidth - 1) = (padDigits pathWidth n).map digitChar := by
    rw [hfilter, List.drop_left' hlen8]
  unfold decodePathChars
  simp only [hlen, if_true]
  rw [hdrop]
  unfold foldDigits
  rw [foldDigits_map_digitChar _ hPlt, foldl_padDigits]
  simp [Nat.mod_eq_of_lt h]

/-- Claim C6: for every non-negative integer n within the supported
addressable width W = 9, decoding the path produced by `path_for n`
recovers n exactly, and `path_for` is injective on that range. -/
theorem path_for_roundtrip_and_injective :
    (∀ n : Nat, n < 10 ^ pathWidth → decode_path (path_for n) = some n) ∧
    (∀ m n : Nat, m < 10 ^ pathWidth → n < 10 ^ pathWidth → m ≠ n →
      path_for m ≠ path_for n) := by
  constructor
  · intro n h
    exact decodePathChars_pathChars n h
  · intro m n hm hn hne heq
    have h1 : decode_path (path_for m) = some m := decodePathChars_pathChars m hm
    have h2 : decode_path (path_for n) = some n := decodePathChars_pathChars n hn
    rw [heq, h2] at h1
    exact hne (Option.some.inj h1).symm

/-- Witness for C6 at concrete inputs. -/
theorem path_for_roundtrip_and_injective_witness :
    decode_path (path_for 42) = some 42 ∧ path_for 3 ≠ path_for 5 :=
  ⟨path_for_roundtrip_and_injective.1 42 (by norm_num [pathWidth]),
   path_for_roundtrip_and_injective.2 3 5 (by norm_num [pathWidth])
     (by norm_num [pathWidth]) (by norm_num)⟩

theorem digit_not_ws (c : Char) (h : c.isDigit = true) : c.isWhitespace = false := by
  cases hws : c.isWhitespace with
  | false => rfl
  | true =>
    exfalso
    have hc : c = ' ' ∨ c = '\t' ∨ c = '\r' ∨ c = '\n' := by
      simpa [Char.isWhitespace, Bool.or_eq_true, decide_eq_true_eq, or_assoc] using hws
    rcases hc with rfl | rfl | rfl | rfl <;> exact absurd h (by decide)

theorem dropWhile_eq_self_of_forall {α : Type} (p : α → Bool) (l : List α)
    (h : ∀ c ∈ l, p c = false) : l.dropWhile p = l := by
  cases l with
  | nil => rfl
  | cons c cs =>
    have hc : p c = false := h c (List.mem_cons_self c cs)
    simp [List.dropWhile_cons, hc]

theorem trimChars_of_all_digits (cs : List Char) (h : ∀ c ∈ cs, c.isDigit = true) :
    trimChars cs = cs := by
  have hws : ∀ c ∈ cs, c.isWhitespace = false := fun c hc => digit_not_ws c (h c hc)
  unfold trimChars
  rw [dropWhile_eq_self_of_forall _ _ hws]
  rw [dropWhile_eq_self_of_forall _ _ (fun c hc => hws c (List.mem_reverse.mp hc))]
  exact List.reverse_reverse cs

theorem natToString_all_digits (n : Nat) :
    ∀ c ∈ (natToString n).data, c.isDigit = true := by
  intro c hc
  unfold natToString at hc
  by_cases h0 : n = 0
  · simp only [h0, if_true] at hc
    have : c ∈ ['0'] := hc
    simp only [List.mem_singleton] at this
    rw [this]; rfl
  · simp only [h0, if_false] at hc
    have hc' : c ∈ (Nat.digits 10 n).reverse.map digitChar := hc
    rcases List.mem_map.mp hc' with ⟨d, hd, rfl⟩
    have hd10 : d < 10 :=
      Nat.digits_lt_base (by norm_num) (List.mem_reverse.mp hd)
    exact digitChar_isDigit hd10

theorem natToString_ne_nil (n : Nat) : (natToString n).data ≠ [] := by
  unfold natToString
  by_cases h0 : n = 0
  · simp [h0]
  · simp only [h0, if_false]
    have hne : Nat.digits 10 n ≠ [] := Nat.digits_ne_nil_iff_ne_zero.mpr h0
    simp [hne]

theorem trimToken_natToString (n : Nat) : trimToken (natToString n) = natToString n := by
  unfold trimToken
  rw [trimChars_of_all_digits _ (natToString_all_digits n)]

theorem all_digits_ne_literals (s : String) (h : ∀ c ∈ s.data, c.isDigit = true) :
    ¬(s = "-1" ∨ s = "null" ∨ s = "genesis") := by
  rintro (rfl | rfl | rfl)
  · exact absurd (h '-' (by decide)) (by decide)
  · exact absurd (h 'n' (by decide)) (by decide)
  · exact absurd (h 'g' (by decide)) (by decide)

theorem foldl_digits_reverse (L : List Nat) : ∀ a : Nat,
    L.reverse.foldl (fun x d => x * 10 + d) a = a * 10 ^ L.length + Nat.ofDigits 10 L := by
  induction L with
  | nil => intro a; simp [Nat.ofDigits]
  | cons d ds ih =>
    intro a
    simp only [List.reverse_cons, List.foldl_append, List.foldl_cons, List.foldl_nil, ih,
      Nat.ofDigits_cons, List.length_cons]
    ring

theorem foldDigits_natToString (n : Nat) : foldDigits (natToString n).data = n := by
  by_cases h0 : n = 0
  · subst h0; rfl
  · unfold natToString
    simp only [h0, if_false]
    show foldDigits ((Nat.digits 10 n).reverse.map digitChar) = n
    unfold foldDigits
    rw [foldDigits_map_digitChar _
      (fun d hd => Nat.digits_lt_base (by norm_num) (List.mem_reverse.mp hd))]
    rw [foldl_digits_reverse]
    simp [Nat.ofDigits_digits]

theorem resolve_literal (l : Ledger) (token : String)
    (hlit : trimToken token = "-1" ∨ trimToken token = "null" ∨
      trimToken token = "genesis")
    (h : hasSnapshot l none = true) :
    blockchain_states_meta_view l token = (200, some (snapshotMeta l.baseUrls none)) := by
  simp only [blockchain_states_meta_view, resolve_state_reference]
  rw [if_pos hlit, if_pos h]

theorem resolve_numeric (l : Ledger) (token : String) (n : Nat)
    (hne : (trimToken token).data ≠ [])
    (hdig : ∀ c ∈ (trimToken token).data, c.isDigit = true)
    (hval : foldDigits (trimToken token).data = n) :
    resolve_state_reference l token =
      if hasSnapshot l (some n) then some (snapshotMeta l.baseUrls (some n)) else none := by
  simp only [resolve_state_reference]
  rw [if_neg (all_digits_ne_literals _ hdig)]
  unfold parseNonNegInt
  rw [if_pos ⟨hne, List.all_eq_true.mpr hdig⟩, hval]

/-- Claim C1: each of the four tokens `-1`, `null`, `genesis` and
`" null "` (surrounding whitespace) resolves with HTTP 200 to the same
genesis snapshot meta (same `last_block_number`, `url_path` and `urls`),
on any ledger holding the (mandatory) genesis snapshot. -/
theorem genesis_token_aliasing (l : Ledger) (h : hasSnapshot l none = true) :
    blockchain_states_meta_view l "-1" = (200, some (snapshotMeta l.baseUrls none)) ∧
    blockchain_states_meta_view l "null" = (200, some (snapshotMeta l.baseUrls none)) ∧
    blockchain_states_meta_view l "genesis" =
      (200, some (snapshotMeta l.baseUrls none)) ∧
    blockchain_states_meta_view l " null " =
      (200, some (snapshotMeta l.baseUrls none)) :=
  ⟨resolve_literal l _ (by decide) h, resolve_literal l _ (by decide) h,
   resolve_literal l _ (by decide) h, resolve_literal l _ (by decide) h⟩

/-- Witness for C1 on the concrete genesis ledger. -/
theorem genesis_token_aliasing_witness :
    hasSnapshot exLedger none = true ∧
    blockchain_states_meta_view exLedger " null " =
      (200, some (snapshotMeta exLedger.baseUrls none)) :=
  ⟨by decide, (genesis_token_aliasing exLedger (by decide)).2.2.2⟩

/-- Claim C2: the unresolvable tokens `-2` (negative other than -1),
`invalid_id` (non-integer), `0` (no snapshot at 0) and `999` (beyond the
chain head, hence no snapshot) all surface as HTTP 404; resolution is a
total function, never a crash. -/
theorem invalid_tokens_not_found (l : Ledger)
    (h0 : hasSnapshot l (some 0) = false) (h999 : hasSnapshot l (some 999) = false) :
    blockchain_states_meta_view l "-2" = (404, none) ∧
    blockchain_states_meta_view l "invalid_id" = (404, none) ∧
    blockchain_states_meta_view l "0" = (404, none) ∧
    blockchain_states_meta_view l "999" = (404, none) := by
  refine ⟨?_, ?_, ?_, ?_⟩
  · simp only [blockchain_states_meta_view, resolve_state_reference]
    rw [if_neg (by decide : ¬(trimToken "-2" = "-1" ∨ trimToken "-2" = "null" ∨
      trimToken "-2" = "genesis"))]
    have hp : parseNonNegInt (trimToken "-2").data = none := by decide
    rw [hp]
  · simp only [blockchain_states_meta_view, resolve_state_reference]
    rw [if_neg (by decide : ¬(trimToken "invalid_id" = "-1" ∨
      trimToken "invalid_id" = "null" ∨ trimToken "invalid_id" = "genesis"))]
    have hp : parseNonNegInt (trimToken "invalid_id").data = none := by decide
    rw [hp]
  · have hres := resolve_numeric l "0" 0 (by decide) (by decide) (by decide)
    simp [blockchain_states_meta_view, hres, h0]
  · have hres := resolve_numeric l "999" 999 (by decide) (by decide) (by decide)
    simp [blockchain_states_meta_view, hres, h999]

/-- Witness for C2 on the concrete genesis ledger, which has no snapshot
at block 0 or 999. -/
theorem invalid_tokens_not_found_witness :
    hasSnapshot exLedger (some 0) = false ∧ hasSnapshot exLedger (some 999) = false ∧
    blockchain_states_meta_view exLedger "invalid_id" = (404, none) :=
  ⟨by decide, by decide,
   (invalid_tokens_not_found exLedger (by decide) (by decide)).2.1⟩

/-- Claim C3: with width W = 9 the genesis snapshot (addressed as number
0) lives under eight nested single-digit directories and the filename
built from the zero-padded number, the `!` boundary marker, the
`-blockchain-state` suffix and the serialization-format extension; the
meta carries the storage-relative path once as `url_path` and `urls` is
each configured base URL concatenated with that path, in configured
order. -/
theorem genesis_snapshot_meta_addressing :
    path_for 0 =
      "0/0/0/0/0/0/0/0/" ++ ("000000000" ++ "!" ++ "-blockchain-state" ++ ".msgpack") ∧
    (∀ baseUrls : List String,
      (snapshotMeta baseUrls none).url_path = storagePath ++ path_for 0 ∧
      (snapshotMeta baseUrls none).urls =
        baseUrls.map (fun b => b ++ (snapshotMeta baseUrls none).url_path)) := by
  exact ⟨by decide, fun baseUrls => ⟨rfl, rfl⟩⟩

/-- Claim C4: after `add_block` then `snapshot_blockchain_state`,
resolving exactly the resulting head block number succeeds and the
returned meta's `last_block_number` equals that number (inclusive
boundary). -/
theorem snapshot_block_number_inclusive (l : Ledger) (r : SignedChangeRequest) :
    ∃ k : Nat,
      get_last_block_number (snapshot_blockchain_state (add_block l r)).1 = some k ∧
      (snapshot_blockchain_state (add_block l r)).2.last_block_number = some k ∧
      blockchain_states_meta_view (snapshot_blockchain_state (add_block l r)).1
          (natToString k) =
        (200, some (snapshotMeta l.baseUrls (some k))) ∧
      (snapshotMeta l.baseUrls (some k)).last_block_number = some k := by
  refine ⟨nextBlockNumber l, rfl, rfl, ?_, rfl⟩
  have hne : (trimToken (natToString (nextBlockNumber l))).data ≠ [] := by
    rw [trimToken_natToString]; exact natToString_ne_nil _
  have hdig : ∀ c ∈ (trimToken (natToString (nextBlockNumber l))).data,
      c.isDigit = true := by
    rw [trimToken_natToString]; exact natToString_all_digits _
  have hval : foldDigits (trimToken (natToString (nextBlockNumber l))).data =
      nextBlockNumber l := by
    rw [trimToken_natToString]; exact foldDigits_natToString _
  have hres := resolve_numeric (snapshot_blockchain_state (add_block l r)).1
    (natToString (nextBlockNumber l)) (nextBlockNumber l) hne hdig hval
  have hsnap : hasSnapshot (snapshot_blockchain_state (add_block l r)).1
      (some (nextBlockNumber l)) = true := by
    show (lookupAssoc (some (nextBlockNumber l))
      (upsertAssoc (get_last_block_number (add_block l r))
        (serializeState (add_block l r).state) l.snapshots)).isSome = true
    have hlbn : get_last_block_number (add_block l r) = some (nextBlockNumber l) := rfl
    rw [hlbn, lookupAssoc_upsertAssoc]
    rfl
  simp only [blockchain_states_meta_view]
  rw [hres, if_pos hsnap]
  rfl

/-- Claim C5: applying the same ordered block sequence to the same (or
independently constructed equal) genesis states yields byte-identical
accounts, nodes and root hash — state materialization is deterministic. -/
theorem state_materialization_deterministic (bs : List Blk) (g₁ g₂ : LedgerState)
    (h : g₁ = g₂) :
    (applyBlocks g₁ bs).accounts = (applyBlocks g₂ bs).accounts ∧
    (applyBlocks g₁ bs).nodes = (applyBlocks g₂ bs).nodes ∧
    (applyBlocks g₁ bs).root_hash = (applyBlocks g₂ bs).root_hash ∧
    serializeState (applyBlocks g₁ bs) = serializeState (applyBlocks g₂ bs) := by
  subst h; exact ⟨rfl, rfl, rfl, rfl⟩

/-- Witness for C5 on a concrete one-block sequence over the concrete
genesis state. -/
theorem state_materialization_deterministic_witness :
    (applyBlocks genesisState
        [{ number := 0,
           request := SignedChangeRequest.nodeDeclaration "node1" [] 3 }]).root_hash =
      (applyBlocks genesisState
        [{ number := 0,
           request := SignedChangeRequest.nodeDeclaration "node1" [] 3 }]).root_hash :=
  (state_materialization_deterministic
    [{ number := 0, request := SignedChangeRequest.nodeDeclaration "node1" [] 3 }]
    genesisState genesisState rfl).2.2.1

/-- Claim C7: snapshotting twice at the same `last_block_number` without
intervening appends is idempotent — byte-identical stored artifacts, the
same address/meta, and an unchanged snapshot store. -/
theorem snapshot_idempotent (l : Ledger) :
    (snapshot_blockchain_state (snapshot_blockchain_state l).1).2 =
      (snapshot_blockchain_state l).2 ∧
    (snapshot_blockchain_state (snapshot_blockchain_state l).1).1 =
      (snapshot_blockchain_state l).1 ∧
    lookupAssoc (get_last_block_number l) (snapshot_blockchain_state l).1.snapshots =
      some (serializeState l.state) ∧
    lookupAssoc (get_last_block_number l)
        (snapshot_blockchain_state (snapshot_blockchain_state l).1).1.snapshots =
      some (serializeState l.state) := by
  obtain ⟨bu, bl, st, sn⟩ := l
  refine ⟨rfl, ?_, lookupAssoc_upsertAssoc _ _ _, ?_⟩
  · simp [snapshot_blockchain_state, get_last_block_number, upsertAssoc_idem]
  · show lookupAssoc st.last_block_number
      (upsertAssoc st.last_block_number (serializeState st)
        (upsertAssoc st.last_block_number (serializeState st) sn)) =
      some (serializeState st)
    rw [upsertAssoc_idem]
    exact lookupAssoc_upsertAssoc _ _ _

/-- Claim C8: the per-class attribute-docs table behind
`get_field_docstring` is computed (by walking the class hierarchy in
`extract_attribute_docs`) at most once per class — only the first call
computes it, every later call reuses the cached table unchanged and
returns equal results for equal arguments. -/
theorem field_docstring_computed_once (m : ClassModel) (f g : String) (i j : Bool) :
    (get_field_docstring m Option.none f i).computed = true ∧
    (get_field_docstring m Option.none f i).cache = some (extract_attribute_docs m) ∧
    (get_field_docstring m (get_field_docstring m Option.none f i).cache g j).computed =
      false ∧
    (get_field_docstring m (get_field_docstring m Option.none f i).cache g j).cache =
      (get_field_docstring m Option.none f i).cache ∧
    (get_field_docstring m
        (get_field_docstring m (get_field_docstring m Option.none f i).cache g j).cache
        f i).computed = false ∧
    (get_field_docstring m
        (get_field_docstring m (get_field_docstring m Option.none f i).cache g j).cache
        f i).result = (get_field_docstring m Option.none f i).result :=
  ⟨rfl, rfl, rfl, rfl, rfl, rfl⟩

/-- Claim C9: with `jsonify` (the default), `get_field_example_value`
returns Python `None` exactly when the metadata has no `example_value`
entry; a present value comes back as its JSON encoding (dates
ISO-formatted), so a declared `None` example yields the string `null`,
distinguishable from an absent example. -/
theorem example_value_none_iff_absent :
    (∀ metadata : List (String × PyValue),
      get_field_example_value metadata true = PyValue.none ↔
        lookupAssoc "example_value" metadata = Option.none) ∧
    (∀ (metadata : List (String × PyValue)) (v : PyValue),
      lookupAssoc "example_value" metadata = some v →
        get_field_example_value metadata true = PyValue.str (json_dumps v)) ∧
    (∀ metadata : List (String × PyValue),
      lookupAssoc "example_value" metadata = some PyValue.none →
        get_field_example_value metadata true = PyValue.str "null" ∧
          (PyValue.str "null" : PyValue) ≠ PyValue.none) ∧
    (∀ y mo d : Nat,
      json_dumps (PyValue.date y mo d) = "\"" ++ isoDate y mo d ++ "\"") := by
  refine ⟨?_, ?_, ?_, fun y mo d => rfl⟩
  · intro metadata
    unfold get_field_example_value
    cases hl : lookupAssoc "example_value" metadata with
    | none => simp
    | some v => simp
  · intro metadata v hl
    simp [get_field_example_value, hl]
  · intro metadata hl
    refine ⟨by simp [get_field_example_value, hl, json_dumps], by simp⟩

/-- Witness for C9: a metadata dict whose declared example value is
`None` yields the JSON string `null`. -/
theorem example_value_none_iff_absent_witness :
    get_field_example_value [("example_value", PyValue.none)] true =
      PyValue.str "null" :=
  (example_value_none_iff_absent.2.2.1 [("example_value", PyValue.none)] rfl).1

theorem get_nested_models_go_extends {C : Type} [DecidableEq C]
    (fields : C → List (FieldSpec C)) :
    ∀ (fuel : Nat) (l km : List C),
      ∃ ext, get_nested_models_go fields fuel l km = km ++ ext := by
  intro fuel
  induction fuel with
  | zero => intro l km; exact ⟨[], by simp [get_nested_models_go]⟩
  | succ fuel ih =>
    intro l
    induction l with
    | nil => intro km; exact ⟨[], by simp [get_nested_models_go]⟩
    | cons t ts ihl =>
      intro km
      by_cases ht : t ∈ km
      · obtain ⟨e, he⟩ := ih ts km
        exact ⟨e, by simp [get_nested_models_go, ht, he]⟩
      · obtain ⟨e1, he1⟩ :=
          ih (nestedCandidates fields t) (km ++ [t])
        obtain ⟨e2, he2⟩ :=
          ih ts (get_nested_models_go fields fuel (nestedCandidates fields t) (km ++ [t]))
        refine ⟨t :: (e1 ++ e2), ?_⟩
        rw [he1] at he2
        simp only [get_nested_models_go, if_neg ht]
        rw [he1, he2]
        simp

theorem get_nested_models_go_nodup {C : Type} [DecidableEq C]
    (fields : C → List (FieldSpec C)) :
    ∀ (fuel : Nat) (l km : List C), km.Nodup →
      (get_nested_models_go fields fuel l km).Nodup := by
  intro fuel
  induction fuel with
  | zero => intro l km h; simpa [get_nested_models_go] using h
  | succ fuel ih =>
    intro l
    induction l with
    | nil => intro km h; simpa [get_nested_models_go] using h
    | cons t ts ihl =>
      intro km h
      by_cases ht : t ∈ km
      · simpa [get_nested_models_go, ht] using ih ts km h
      · have hkm : (km ++ [t]).Nodup := by
          simp [List.nodup_append, h, ht]
        have hinner :=
          ih (nestedCandidates fields t) (km ++ [t]) hkm
        simpa [get_nested_models_go, ht] using ih ts _ hinner

/-- Claim C10 counterexample: on the two-class universe where A and B
reference each other, calling `get_nested_models` on A with empty
`known_models` (so the asserted precondition holds) and
`include_self = False` still returns a list containing A — A is reached
again as a nested model of B — refuting "the class itself appears in the
result exactly when include_self is true". -/
theorem nested_models_include_self_refuted :
    (ExCls.A ∈ ([] : List ExCls)) = False ∧
    get_nested_models exFields 5 ExCls.A [] false = [ExCls.B, ExCls.A] ∧
    ExCls.A ∈ get_nested_models exFields 5 ExCls.A [] false := by
  refine ⟨by simp, by decide, by decide⟩

/-- Claim C10 (amended): when the passed `known_models` is duplicate-free
and satisfies the asserted precondition, the returned list is
duplicate-free (each documentable model class appears at most once) and
extends `known_models`; the class itself always appears when
`include_self` is true, but with `include_self` false it may still appear
when it is reachable as a nested model of itself through cyclic field
references (nested models being gathered from direct field types, list
item types, and dict key and value types, per `fieldModels`). -/
theorem nested_models_nodup_and_self (C : Type) [inst : DecidableEq C]
    (fields : C → List (FieldSpec C)) (fuel : Nat) (cls : C)
    (known_models : List C) (include_self : Bool)
    (hnd : known_models.Nodup) (hcls : cls ∉ known_models) :
    (get_nested_models fields fuel cls known_models include_self).Nodup ∧
    (include_self = true →
      cls ∈ get_nested_models fields fuel cls known_models include_self) ∧
    (∃ ext, get_nested_models fields fuel cls known_models include_self =
      (if include_self then known_models ++ [cls] else known_models) ++ ext) := by
  have hkm : (if include_self then known_models ++ [cls] else known_models).Nodup := by
    cases include_self with
    | false => simpa using hnd
    | true => simp [List.nodup_append, hnd, hcls]
  refine ⟨get_nested_models_go_nodup fields fuel _ _ hkm, ?_, ?_⟩
  · intro hinc
    obtain ⟨ext, hext⟩ := get_nested_models_go_extends fields fuel
      (nestedCandidates fields cls)
      (if include_self then known_models ++ [cls] else known_models)
    unfold get_nested_models
    rw [hext, hinc]
    simp
  · exact get_nested_models_go_extends fields fuel _ _

/-- Witness for the amended C10 on the concrete universe. -/
theorem nested_models_nodup_and_self_witness :
    (get_nested_models exFields 5 ExCls.A [] true).Nodup ∧
    ExCls.A ∈ get_nested_models exFields 5 ExCls.A [] true :=
  ⟨(nested_models_nodup_and_self ExCls exFields 5 ExCls.A [] true
      (by simp) (by simp)).1,
   (nested_models_nodup_and_self ExCls exFields 5 ExCls.A [] true
      (by simp) (by simp)).2.1 rfl⟩

end TNB
